import Mathlib

/-!
A verification development for the `lettersmith_py` static-site generator.

The development shallowly embeds the functions of `lettersmith/doc.py`,
`lettersmith/wikilink.py` and `lettersmith/bin/site.py` as executable Lean
definitions and proves (or refutes) the specified properties about them.

Python dictionaries are modelled as association lists with unique,
insertion-ordered keys (`pyDictOf` / `pyDictInsert` below reproduce the
CPython insertion semantics: re-inserting an existing key overwrites the
value in place, a fresh key is appended at the end).  Documents handled by
`doc.py` are dictionaries of string keys to dynamically typed values; the
record types handled by `wikilink.py` use attribute access and are embedded
as structures.

Helper modules of the repository that are not part of the source tree
(`lettersmith.util`, `lettersmith.path`, `lettersmith.date`,
`lettersmith.stringtools`) and the vendored front-matter splitter are
modelled from the specification; each such definition carries a
`Modelled from the spec` comment.
-/

namespace Lettersmith

/-! ## Python dictionary model -/

/-- Models the Python membership test: `pyAny d k` is the test `k in d` on a dict. -/
def pyAny {α : Type} (d : List (String × α)) (k : String) : Bool :=
  d.any (fun p => p.1 = k)

/-- Models the Python lookup: `pyGet d k` is the lookup `d[k]` (resp. `d.get(k)`) on a dict
whose entries are listed in insertion order with unique keys: the first entry
carrying key `k` is returned. -/
def pyGet {α : Type} (d : List (String × α)) (k : String) : Option α :=
  (d.find? (fun p => p.1 = k)).map Prod.snd

/-- Models the Python assignment: `pyDictInsert d k v` is the assignment `d[k] = v`: an existing
key keeps its position and has its value overwritten, a fresh key is appended
at the end. -/
def pyDictInsert {α : Type} (d : List (String × α)) (k : String) (v : α) :
    List (String × α) :=
  if pyAny d k then d.map (fun p => if p.1 = k then (k, v) else p)
  else d ++ [(k, v)]

/-- Models a Python dict comprehension: `pyDictOf kvs` is the dict built by inserting the key/value
pairs of `kvs` in order (as a dict comprehension does): later pairs with the
same key overwrite earlier ones. -/
def pyDictOf {α : Type} (kvs : List (String × α)) : List (String × α) :=
  kvs.foldl (fun d kv => pyDictInsert d kv.1 kv.2) []

/-- Models appending to a dict entry: `appendAt d k x` is the Python statement `d[k].append(x)` on a dict of
lists (a no-op if `k` is not a key of `d`). -/
def appendAt {α : Type} (d : List (String × List α)) (k : String) (x : α) :
    List (String × List α) :=
  d.map (fun p => if p.1 = k then (p.1, p.2 ++ [x]) else p)

/-! ## The wikilink pattern

`wikilink.py` matches the regular expression `WIKILINK = \[\[([^\]]+)\]\]`
with `re.sub` (rendering) and `re.finditer` (extraction).  Both scan the
text left to right and consume non-overlapping matches.  Because `[^\]]+`
cannot match `]`, backtracking never extends a match: at a given position
the pattern matches exactly when the literal `[[` is followed by a
nonempty run of non-`]` characters and then the literal `]]`. -/

/-- Matches the tail of the `WIKILINK` pattern once the leading `[[` has been
consumed: returns the run of non-`]` characters (the capture group) and the
input remaining after the closing `]]`; `none` when the pattern does not
match here.  The run may be empty; callers reject an empty capture,
mirroring the `+` in `[^\]]+`. -/
def grabInner : List Char → Option (List Char × List Char)
  | [] => none
  | c :: rest =>
    if c = ']' then
      match rest with
      | [] => none
      | c2 :: rest2 => if c2 = ']' then some ([], rest2) else none
    else
      (grabInner rest).map (fun p => (c :: p.1, p.2))

/-- Models `re.sub(WIKILINK, repl, text)` from `wikilink.py`: each
non-overlapping match, scanning left to right, is replaced by `f` applied to
the capture group; all other characters are copied unchanged. -/
def renderWikilinks (f : String → String) : List Char → List Char
  | [] => []
  | [c] => [c]
  | c1 :: c2 :: rest =>
    if c1 = '[' ∧ c2 = '[' then
      match h : grabInner rest with
      | some (inner, rest2) =>
        if inner = [] then c1 :: renderWikilinks f (c2 :: rest)
        else (f (String.mk inner)).toList ++ renderWikilinks f rest2
      | none => c1 :: renderWikilinks f (c2 :: rest)
    else c1 :: renderWikilinks f (c2 :: rest)
termination_by l => l.length
decreasing_by
  · simp
  · have key : ∀ (l inner r : List Char),
        grabInner l = some (inner, r) → r.length < l.length := by
      intro l
      induction l with
      | nil => intro inner r hh; simp [grabInner] at hh
      | cons c l ih =>
        intro inner r hh
        by_cases hc : c = ']'
        · subst hc
          cases l with
          | nil => simp [grabInner] at hh
          | cons c2 l2 =>
            by_cases hc2 : c2 = ']'
            · subst hc2
              simp [grabInner] at hh
              rw [← hh.2]
              simp
              omega
            · simp [grabInner, hc2] at hh
        · simp only [grabInner, if_neg hc] at hh
          rcases Option.map_eq_some'.mp hh with ⟨⟨inner2, r2⟩, hg, heq⟩
          have := ih inner2 r2 hg
          have hr : r = r2 := (Prod.mk.injEq _ _ _ _).mp heq |>.2.symm ▸ rfl
          subst hr
          simp
          omega
    have := key rest inner rest2 h
    simp
    omega
  · simp
  · simp

/-- Models `re.finditer(WIKILINK, text)` from `wikilink.py` followed by
taking `match.group(1)` of every match: the list of capture groups of the
non-overlapping matches, in text order. -/
def extractWikilinks : List Char → List (List Char)
  | [] => []
  | [_] => []
  | c1 :: c2 :: rest =>
    if c1 = '[' ∧ c2 = '[' then
      match h : grabInner rest with
      | some (inner, rest2) =>
        if inner = [] then extractWikilinks (c2 :: rest)
        else inner :: extractWikilinks rest2
      | none => extractWikilinks (c2 :: rest)
    else extractWikilinks (c2 :: rest)
termination_by l => l.length
decreasing_by
  · simp
  · have key : ∀ (l inner r : List Char),
        grabInner l = some (inner, r) → r.length < l.length := by
      intro l
      induction l with
      | nil => intro inner r hh; simp [grabInner] at hh
      | cons c l ih =>
        intro inner r hh
        by_cases hc : c = ']'
        · subst hc
          cases l with
          | nil => simp [grabInner] at hh
          | cons c2 l2 =>
            by_cases hc2 : c2 = ']'
            · subst hc2
              simp [grabInner] at hh
              rw [← hh.2]
              simp
              omega
            · simp [grabInner, hc2] at hh
        · simp only [grabInner, if_neg hc] at hh
          rcases Option.map_eq_some'.mp hh with ⟨⟨inner2, r2⟩, hg, heq⟩
          have := ih inner2 r2 hg
          have hr : r = r2 := (Prod.mk.injEq _ _ _ _).mp heq |>.2.symm ▸ rfl
          subst hr
          simp
          omega
    have := key rest inner rest2 h
    simp
    omega
  · simp
  · simp

/-! ## Utility modules modelled from the spec

`lettersmith.path`, `lettersmith.date` and `lettersmith.stringtools` are
imported by the source files but are not part of the source tree; the
definitions in this section are modelled from the specification (§4.14,
§4.15, §4.16). -/

/-- Modelled from the spec: `lettersmith.path.to_slug` normalizes text to
lowercase with consistent separators, for case/format-insensitive
matching (§4.14).  Implemented over the character list so that it reduces
on concrete inputs: whitespace is stripped from both ends, letters are
lowercased, and space and underscore become `-`. -/
def to_slug (s : String) : String :=
  let lowered := s.toList.map Char.toLower
  let trimmed :=
    ((lowered.dropWhile Char.isWhitespace).reverse.dropWhile Char.isWhitespace).reverse
  String.mk (trimmed.map
    (fun c => if c = ' ' then '-' else if c = '_' then '-' else c))

/-- Modelled from the spec: `lettersmith.path.to_url` joins a base URL and an
output path into an absolute link (§4.14). -/
def to_url (p : String) (base : String) : String :=
  if base.endsWith "/" then base ++ p else base ++ "/" ++ p

/-- Modelled from the spec: `lettersmith.path.to_title` derives a title from
the filename stem by replacing separator characters with spaces and applying
title-case (§4.14). -/
def to_title (p : String) : String :=
  let stem := (((p.splitOn "/").getLastD "").splitOn ".").headD ""
  let spaced := String.map
    (fun c => if c = '-' then ' ' else if c = '_' then ' ' else c) stem
  String.intercalate " " ((spaced.splitOn " ").map (fun w => w.capitalize))

/-- Modelled from the spec: `lettersmith.path.tld` returns the first path
segment, the document's "section"; root-level documents have an empty
section (§4.14). -/
def tld (p : String) : String :=
  match p.splitOn "/" with
  | [] => ""
  | [_] => ""
  | seg :: _ => seg

/-- A calendar date: the payload of the datetime values handled by
`lettersmith.date` (modelled from the spec, §4.15). -/
structure Time where
  year : Nat
  month : Nat
  day : Nat
deriving DecidableEq, Repr

/-- Modelled from the spec: the epoch sentinel 1970-01-01 (§4.15). -/
def EPOCH : Time := ⟨1970, 1, 1⟩

/-- Splits a character list at every occurrence of the separator (the
list-level counterpart of Python's `str.split(sep)`). -/
def splitOnChar (sep : Char) : List Char → List (List Char)
  | [] => [[]]
  | c :: rest =>
    if c = sep then [] :: splitOnChar sep rest
    else
      match splitOnChar sep rest with
      | [] => [[c]]
      | w :: ws => (c :: w) :: ws

/-- The numeric value of a run of decimal digits. -/
def digitsToNat (l : List Char) : Nat :=
  l.foldl (fun n c => n * 10 + (c.toNat - 48)) 0

/-- Modelled from the spec: `lettersmith.date.parse_iso_8601` parses an
ISO-8601 `YYYY-MM-DD` date string and fails on malformed input (§4.15). -/
def parse_iso_8601 (s : String) : Option Time :=
  match splitOnChar '-' s.toList with
  | [y, m, d] =>
    if y.length = 4 ∧ m.length = 2 ∧ d.length = 2
        ∧ (y ++ m ++ d).all Char.isDigit then
      let mo := digitsToNat m
      let da := digitsToNat d
      if 1 ≤ mo ∧ mo ≤ 12 ∧ 1 ≤ da ∧ da ≤ 31 then
        some ⟨digitsToNat y, mo, da⟩
      else none
    else none
  | _ => none

/-- Modelled from the spec: `lettersmith.stringtools.truncate` returns the
text unchanged if within `max_len`, else cuts at the last whole-word boundary
at or before `max_len` and appends `suffix` (§4.16). -/
def truncate (text : String) (max_len : Nat) (suffix : String) : String :=
  if text.length ≤ max_len then text
  else String.intercalate " " (((text.take max_len).splitOn " ").dropLast) ++ suffix

mutual

/-- Tag remover over characters: drops every run between `<` and the next
`>`, inclusive.  `dropTag` consumes the inside of a tag up to the closing
`>`. -/
def stripTags : List Char → List Char
  | [] => []
  | c :: rest => if c = '<' then dropTag rest else c :: stripTags rest

def dropTag : List Char → List Char
  | [] => []
  | c :: rest => if c = '>' then stripTags rest else dropTag rest

end

/-- Modelled from the spec: `lettersmith.stringtools.strip_html` removes
markup tags, leaving plain text (§4.16). -/
def strip_html (text : String) : String :=
  String.mk (stripTags text.toList)

/-! ## Dynamically typed doc values

`doc.py` handles docs as Python dictionaries of string keys to dynamically
typed values.  The value universe used by the embedded functions: strings,
datetime values, the nested `meta` (header) dictionary, lists of strings
and `None`. -/

/-- A value stored under a key of a doc's `meta` header dictionary. -/
inductive MetaVal where
  | mstr (s : String)
  | mlist (ss : List String)
  | mnone
deriving DecidableEq, Repr

/-- A value stored under a top-level key of a doc dictionary. -/
inductive Value where
  | vstr (s : String)
  | vtime (t : Time)
  | vmeta (m : List (String × MetaVal))
  | vlist (ss : List String)
  | vnone
deriving DecidableEq, Repr

/-- The injection of meta values into top-level doc values (in Python both
live in the same dynamic universe). -/
def MetaVal.toValue : MetaVal → Value
  | MetaVal.mstr s => Value.vstr s
  | MetaVal.mlist ss => Value.vlist ss
  | MetaVal.mnone => Value.vnone

/-- Python truthiness of a doc value. -/
def Value.truthy : Value → Bool
  | Value.vstr s => s ≠ ""
  | Value.vtime _ => true
  | Value.vmeta m => m ≠ []
  | Value.vlist ss => ss ≠ []
  | Value.vnone => false

/-- Python truthiness of `d.get(k)`: an absent key is falsy. -/
def truthyOpt : Option Value → Bool
  | some v => v.truthy
  | none => false

/-- A doc dictionary as handled by `doc.py`. -/
abbrev Doc : Type := List (String × Value)

/-- Modelled from the spec: `lettersmith.util.put` returns a copy of the
record with one field set (§4.18); `lettersmith.util` is not in the source
tree. -/
def put (d : Doc) (k : String) (v : Value) : Doc := pyDictInsert d k v

/-- Modelled from the spec: `lettersmith.util.merge` returns a copy with the
given fields overlaid, their keys winning on conflict (§4.18). -/
def merge (d : Doc) (fields : List (String × Value)) : Doc :=
  fields.foldl (fun acc p => pyDictInsert acc p.1 p.2) d

/-- Modelled from the spec: `lettersmith.util.pick` returns a copy containing
only the named keys (§4.18). -/
def pick (d : Doc) (keys : List String) : Doc :=
  d.filter (fun p => decide (p.1 ∈ keys))

/-- Modelled from the spec: `lettersmith.util.unset` returns a copy with the
named keys removed entirely (§4.18). -/
def unset (d : Doc) (keys : List String) : Doc :=
  d.filter (fun p => decide (p.1 ∉ keys))

/-! ## `doc.py` -/

/-- From `doc.py` `load` (lines 30–38): the dictionary shape returned by
`load`.  The file read, the front-matter split and the path computations
feeding the seven fields are abstracted into the parameters. -/
def loaded_doc (fct fmt : Time) (ip sp op : String)
    (m : List (String × MetaVal)) (c : String) : Doc :=
  [("file_created_time", Value.vtime fct),
   ("file_modified_time", Value.vtime fmt),
   ("input_path", Value.vstr ip),
   ("simple_path", Value.vstr sp),
   ("output_path", Value.vstr op),
   ("meta", Value.vmeta m),
   ("content", Value.vstr c)]

/-- From `doc.py` `rm_content` (lines 41–49). -/
def rm_content (doc : Doc) : Doc := unset doc ["content"]

/-- From `doc.py` `reload_content` (lines 52–67).  `fs` models reading the
file at a path and splitting it with `frontmatter.parse`: `fs p = none`
models a raised I/O error (which `reload_content` does not catch — only
`KeyError` is caught), `fs p = some (meta, content)` a successful read and
split.  A doc whose `input_path` holds a non-string raises an uncaught
error in `open`, modelled as `none`. -/
def reload_content (fs : String → Option (List (String × MetaVal) × String))
    (doc : Doc) : Option Doc :=
  if truthyOpt (pyGet doc "content") then some doc
  else
    match pyGet doc "input_path" with
    | some (Value.vstr p) =>
      match fs p with
      | some mc => some (put doc "content" (Value.vstr mc.2))
      | none => none
    | some _ => none
    | none => some (put doc "content" (Value.vstr ""))

/-- From `doc.py` `read_summary` (lines 79–87).  `meta["summary"]` is
returned when the key is declared; a missing `meta` or missing key
(`KeyError`) falls back to a summary truncated from the HTML-stripped
content; a doc whose `meta` or `content` holds a value of the wrong type
raises an uncaught `TypeError`, modelled as `none`. -/
def read_summary (doc : Doc) (max_len : Nat := 250) (suffix : String := "...") :
    Option Value :=
  let fb : Option Value :=
    match (pyGet doc "content").getD (Value.vstr "") with
    | Value.vstr c => some (Value.vstr (truncate (strip_html c) max_len suffix))
    | _ => none
  match pyGet doc "meta" with
  | some (Value.vmeta m) =>
    match pyGet m "summary" with
    | some v => some v.toValue
    | none => fb
  | some _ => none
  | none => fb

/-- From `doc.py` `read_title` (lines 90–98): `meta["title"]` when declared,
else a title derived from the filename; a missing `meta` or missing key
(`KeyError`) takes the fallback, a wrong-typed `meta` or `input_path`
raises an uncaught `TypeError`, modelled as `none`. -/
def read_title (doc : Doc) : Option Value :=
  let fb : Option Value :=
    match pyGet doc "input_path" with
    | some (Value.vstr p) => some (Value.vstr (to_title p))
    | _ => none
  match pyGet doc "meta" with
  | some (Value.vmeta m) =>
    match pyGet m "title" with
    | some v => some v.toValue
    | none => fb
  | some _ => none
  | none => fb

/-- The `try` body shared by `read_date` and `read_modified`
(`doc.py` lines 105–106 and 115–116): the header date under `field`, when
`meta` is a dict holding a string that parses as ISO-8601.  Every failure
(`KeyError` on a missing `meta` or missing key, `TypeError` on a wrong-typed
`meta` or a non-string date, `ValueError` on a malformed string) is caught
by the `except` clause of the caller, so it is folded into `none` here. -/
def read_header_date (doc : Doc) (field : String) : Option Time :=
  match pyGet doc "meta" with
  | some (Value.vmeta m) =>
    match pyGet m field with
    | some (MetaVal.mstr s) => parse_iso_8601 s
    | _ => none
  | _ => none

/-- From `doc.py` `read_date` (lines 101–108). -/
def read_date (doc : Doc) : Value :=
  match read_header_date doc "date" with
  | some t => Value.vtime t
  | none => (pyGet doc "file_created_time").getD (Value.vtime EPOCH)

/-- From `doc.py` `read_modified` (lines 111–118). -/
def read_modified (doc : Doc) : Value :=
  match read_header_date doc "modified" with
  | some t => Value.vtime t
  | none => (pyGet doc "file_modified_time").getD (Value.vtime EPOCH)

/-- From `doc.py` `decorate_smart_items` (lines 121–136).  The dict literal
evaluates `read_title`, `read_summary` and `tld(doc["simple_path"])` before
`merge` runs; an exception in any of them (including the `KeyError` of a
missing `simple_path` and the `TypeError` of a non-string one) aborts the
call, modelled as `none`. -/
def decorate_smart_items (doc : Doc) : Option Doc :=
  match read_title doc, read_summary doc, pyGet doc "simple_path" with
  | some t, some s, some (Value.vstr sp) =>
    some (merge doc
      [("title", t), ("summary", s), ("section", Value.vstr (tld sp)),
       ("date", read_date doc), ("modified", read_modified doc)])
  | _, _, _ => none

/-- From `doc.py`: the whitelist `_LI_KEYS` (lines 140–151), in source
order. -/
def LI_KEYS : List String :=
  ["title", "date", "modified", "file_created_time", "file_modified_time",
   "simple_path", "output_path", "section", "meta", "summary"]

/-- From `doc.py` `to_li` (lines 154–160). -/
def to_li (doc : Doc) : Doc := pick doc LI_KEYS

/-! ## `wikilink.py`

The functions of `wikilink.py` access their inputs through attributes
(`stub.title`, `stub.meta`, `doc.content`), so stubs and docs are embedded
as structures here.  Of a stub's `meta` dictionary only the `wikilinks` key
is ever consulted; the field `wikilinks : Option (List String)` records its
presence (the membership test `"wikilinks" in stub.meta`) and value
(`stub.meta["wikilinks"]`, a tuple of slugs). -/

/-- A stub record as consumed by `wikilink.py`. -/
structure Stub where
  title : String
  id_path : String
  output_path : String
  wikilinks : Option (List String)
deriving DecidableEq, Repr

/-- A doc record as consumed by `wikilink.py`: the `content` field it
rewrites, the `meta` dictionary, and the remaining fields it must leave
untouched (represented by `title` and `output_path`). -/
structure WDoc where
  content : String
  meta : List (String × MetaVal)
  title : String
  output_path : String
deriving DecidableEq, Repr

/-- From `wikilink.py` `index_slug_to_url` (lines 24–31): the dict
comprehension `{to_slug(stub.title): to_url(stub.output_path, base_url)}`
over the stubs, later entries overwriting earlier ones. -/
def index_slug_to_url (stubs : List Stub) (base_url : String := "/") :
    List (String × String) :=
  pyDictOf (stubs.map (fun stub =>
    (to_slug stub.title, to_url stub.output_path base_url)))

/-- From `wikilink.py` `doc_renderer` (lines 47–54), the inner
`render_inner_match` closure instantiated with the default templates
`LINK_TEMPLATE` and `NOLINK_TEMPLATE` (lines 20–21): formats one match's
capture group, looking the slug of the stripped inner text up in the
slug-to-url index; the `KeyError` of an unmatched slug selects the
`nolink` template. -/
def render_inner_match (slug_to_url : List (String × String)) (inner : String) :
    String :=
  let text := inner.trim
  match pyGet slug_to_url (to_slug text) with
  | some url => "<a href=\"" ++ url ++ "\" class=\"wikilink\">" ++ text ++ "</a>"
  | none => "<span class=\"nolink\">" ++ text ++ "</span>"

/-- From `wikilink.py` `doc_renderer` (lines 34–71): the returned `render_doc`
function, with the default templates; substitutes every `WIKILINK` match of
the doc's content and leaves every other field unchanged
(`replace(doc, content=content)`). -/
def doc_renderer (stubs : List Stub) (base_url : String) (doc : WDoc) : WDoc :=
  let slug_to_url := index_slug_to_url stubs base_url
  let content := String.mk
    (renderWikilinks (render_inner_match slug_to_url) doc.content.toList)
  { doc with content := content }

/-- The slugs of the `WIKILINK` capture groups of a content string, in match
order (`wikilink.py` lines 87–89). -/
def wikilinkSlugs (content : String) : List String :=
  (extractWikilinks content.toList).map (fun inner => to_slug (String.mk inner))

/-- From `wikilink.py` `uplift_wikilinks` (lines 83–90).  `Doc.replace_meta`
is not part of the source tree; modelled from the spec: it stores the
ordered list of slugs under `meta.wikilinks`, leaving the other fields and
meta keys unchanged (§4.2). -/
def uplift_wikilinks (doc : WDoc) : WDoc :=
  let slugs := wikilinkSlugs doc.content
  { doc with meta := pyDictInsert doc.meta "wikilinks" (MetaVal.mlist slugs) }

/-- The dict comprehension shared by `index_links` (lines 99–103) and
`index_backlinks` (lines 122–126): slug-of-title to stub, over the stubs
that declare a `wikilinks` meta key, later entries overwriting earlier
ones. -/
def wikilink_index (stubs : List Stub) : List (String × Stub) :=
  pyDictOf ((stubs.filter (fun s => s.wikilinks.isSome)).map
    (fun s => (to_slug s.title, s)))

/-- The body of the `for stub in wikilink_index.values()` loop of
`index_links` (lines 105–112): ensure the entry for `stub.id_path` exists
(lines 106–107), then append the resolved target of each distinct slug of
`frozenset(stub.meta["wikilinks"])` — modelled by `List.dedup` — skipping
unresolved slugs (`except KeyError: pass`). -/
def linkIndexStep (wi : List (String × Stub)) (li : List (String × List Stub))
    (stub : Stub) : List (String × List Stub) :=
  ((stub.wikilinks.getD []).dedup).foldl (fun acc slug =>
    match pyGet wi slug with
    | some target => appendAt acc stub.id_path target
    | none => acc)
    (if pyAny li stub.id_path then li else li ++ [(stub.id_path, [])])

/-- From `wikilink.py` `index_links` (lines 93–113). -/
def index_links (stubs : List Stub) : List (String × List Stub) :=
  let wi := wikilink_index stubs
  (wi.map Prod.snd).foldl (linkIndexStep wi) []

/-- The body of the `for stub in wikilink_index.values()` loop of
`index_backlinks` (lines 128–136): for each distinct slug of
`frozenset(stub.meta["wikilinks"])` — modelled by `List.dedup` — resolve
the target (skipping unresolved slugs, `except KeyError: pass`), create the
backlink entry for the target's `id_path` on first use (lines 132–133) and
append the linking stub (line 134). -/
def backlinkIndexStep (wi : List (String × Stub)) (bi : List (String × List Stub))
    (stub : Stub) : List (String × List Stub) :=
  ((stub.wikilinks.getD []).dedup).foldl (fun acc slug =>
    match pyGet wi slug with
    | some target =>
      appendAt (if pyAny acc target.id_path then acc
        else acc ++ [(target.id_path, [])]) target.id_path stub
    | none => acc) bi

/-- From `wikilink.py` `index_backlinks` (lines 116–137). -/
def index_backlinks (stubs : List Stub) : List (String × List Stub) :=
  let wi := wikilink_index stubs
  (wi.map Prod.snd).foldl (backlinkIndexStep wi) []

/-- The list of resolved link targets of a stub: the stubs the slug index
maps the stub's distinct declared wikilink slugs to, unresolved slugs
skipped. -/
def linkTargets (wi : List (String × Stub)) (s : Stub) : List Stub :=
  ((s.wikilinks.getD []).dedup).filterMap (fun slug => pyGet wi slug)

/-! ## `bin/site.py` -/

/-- The exceptions the static-asset copy step of `main` can raise:
`CalledProcessError` from the copy mechanism, or anything else. -/
inductive CopyError where
  | calledProcessError
  | otherError
deriving DecidableEq, Repr

/-- From `bin/site.py` `main` (lines 134–137): the completion line
`'Done! Generated {sum} files in "{output_path}"'` with `sum` bound to
`stats["written"]`. -/
def done_line (written : Nat) (output_path : String) : String :=
  "Done! Generated " ++ toString written ++ " files in \"" ++ output_path ++ "\""

/-- From `bin/site.py` `main` (lines 127–137): the tail of the orchestrator
after `Docs.write` has produced its statistics.  `copyResult` is the outcome
of the `copy_all` call inside the `try` block; `except CalledProcessError:
pass` suppresses exactly that error, after which the completion line is
printed.  The result is the printed line, or the exception that aborted the
run. -/
def main_after_write (written : Nat) (output_path : String)
    (copyResult : Except CopyError Unit) : Except CopyError String :=
  match (match copyResult with
         | Except.error CopyError.calledProcessError => Except.ok ()
         | r => r) with
  | Except.ok () => Except.ok (done_line written output_path)
  | Except.error e => Except.error e

/-! ## Theorems

Everything below this point is a theorem about the definitions above;
the development first characterizes the dictionary model and the scanner,
then settles the claims. -/

theorem pyAny_eq_false_iff {α : Type} (d : List (String × α)) (k : String) :
    pyAny d k = false ↔ ∀ p ∈ d, p.1 ≠ k := by
  simp [pyAny]

theorem pyAny_eq_true_iff {α : Type} (d : List (String × α)) (k : String) :
    pyAny d k = true ↔ ∃ p ∈ d, p.1 = k := by
  simp [pyAny]

theorem pyGet_nil {α : Type} (k : String) : pyGet ([] : List (String × α)) k = none := rfl

theorem pyGet_cons {α : Type} (p : String × α) (d : List (String × α)) (k : String) :
    pyGet (p :: d) k = if p.1 = k then some p.2 else pyGet d k := by
  by_cases h : p.1 = k <;> simp [pyGet, List.find?_cons, h]

theorem pyGet_append {α : Type} (d₁ d₂ : List (String × α)) (k : String) :
    pyGet (d₁ ++ d₂) k = (pyGet d₁ k).orElse (fun _ => pyGet d₂ k) := by
  induction d₁ with
  | nil => simp [pyGet]
  | cons p d ih =>
    rw [List.cons_append, pyGet_cons, pyGet_cons]
    by_cases h : p.1 = k <;> simp [h, ih]

theorem pyGet_eq_none_of_pyAny_false {α : Type} (d : List (String × α)) (k : String) :
    pyAny d k = false → pyGet d k = none := by
  induction d with
  | nil => intro _; rfl
  | cons p d ih =>
    intro h
    rw [pyAny_eq_false_iff] at h
    rw [pyGet_cons, if_neg (h p (by simp))]
    exact ih ((pyAny_eq_false_iff d k).mpr fun q hq => h q (by simp [hq]))

theorem pyGet_mapOverwrite_self {α : Type} (d : List (String × α)) (k : String) (v : α) :
    pyGet (d.map (fun p => if p.1 = k then (k, v) else p)) k
      = if pyAny d k then some v else none := by
  induction d with
  | nil => simp [pyGet, pyAny]
  | cons p d ih =>
    rw [List.map_cons, pyGet_cons]
    by_cases hp : p.1 = k
    · simp [hp, pyAny]
    · simp only [if_neg hp]
      rw [ih]
      have : pyAny (p :: d) k = pyAny d k := by simp [pyAny, hp]
      rw [this]

theorem pyGet_mapOverwrite_other {α : Type} (d : List (String × α)) (k k' : String) (v : α)
    (h : k' ≠ k) :
    pyGet (d.map (fun p => if p.1 = k then (k, v) else p)) k' = pyGet d k' := by
  induction d with
  | nil => rfl
  | cons p d ih =>
    rw [List.map_cons, pyGet_cons, pyGet_cons]
    by_cases hp : p.1 = k
    · have h1 : ¬(k = k') := fun e => h e.symm
      have h2 : ¬(p.1 = k') := hp ▸ h1
      simp [hp, h1, h2, ih]
    · simp only [if_neg hp]
      by_cases hpk : p.1 = k' <;> simp [hpk, ih]

/-- The effect of a Python dict assignment on subsequent lookups. -/
theorem pyGet_pyDictInsert {α : Type} (d : List (String × α)) (k k' : String) (v : α) :
    pyGet (pyDictInsert d k v) k' = if k' = k then some v else pyGet d k' := by
  rw [pyDictInsert]
  by_cases hmem : pyAny d k
  · simp only [hmem, if_true]
    by_cases h : k' = k
    · subst h; rw [pyGet_mapOverwrite_self, if_pos hmem, if_pos rfl]
    · rw [pyGet_mapOverwrite_other d k k' v h, if_neg h]
  · simp only [hmem, Bool.false_eq_true, if_false]
    rw [pyGet_append]
    by_cases h : k' = k
    · subst h
      rw [pyGet_eq_none_of_pyAny_false _ _ (by simpa using hmem)]
      simp [pyGet]
    · rw [if_neg h]
      have hk : ¬(k = k') := fun e => h e.symm
      rw [show pyGet [(k, v)] k' = none by simp [pyGet, hk]]
      cases pyGet d k' <;> rfl

theorem pyDictOf_append_singleton {α : Type} (kvs : List (String × α)) (kv : String × α) :
    pyDictOf (kvs ++ [kv]) = pyDictInsert (pyDictOf kvs) kv.1 kv.2 := by
  rw [pyDictOf, List.foldl_append]
  rfl

/-- Lookup in a Python dict comprehension: the last key/value pair wins. -/
theorem pyGet_pyDictOf {α : Type} (kvs : List (String × α)) (k : String) :
    pyGet (pyDictOf kvs) k = ((kvs.filter (fun p => p.1 = k)).getLast?).map Prod.snd := by
  induction kvs using List.reverseRecOn with
  | nil => rfl
  | append_singleton l a ih =>
    rw [pyDictOf_append_singleton, pyGet_pyDictInsert, List.filter_append]
    by_cases ha : a.1 = k
    · rw [if_pos ha.symm]
      rw [show List.filter (fun p => decide (p.1 = k)) [a] = [a] by simp [ha]]
      rw [List.getLast?_concat]
      rfl
    · rw [if_neg (fun e => ha e.symm)]
      rw [show List.filter (fun p => decide (p.1 = k)) [a] = [] by simp [ha]]
      rw [List.append_nil]
      exact ih

/-- Every entry of a Python dict built from a pair list is one of those pairs. -/
theorem mem_pyDictOf {α : Type} (kvs : List (String × α)) (p : String × α)
    (h : p ∈ pyDictOf kvs) : p ∈ kvs := by
  induction kvs using List.reverseRecOn with
  | nil => simp [pyDictOf] at h
  | append_singleton l a ih =>
    rw [pyDictOf_append_singleton, pyDictInsert] at h
    by_cases hmem : pyAny (pyDictOf l) a.1
    · rw [if_pos hmem] at h
      rcases List.mem_map.mp h with ⟨q, hq, hfq⟩
      by_cases hqa : q.1 = a.1
      · rw [if_pos hqa] at hfq
        subst hfq
        simp
      · rw [if_neg hqa] at hfq
        subst hfq
        exact List.mem_append_left _ (ih hq)
    · rw [if_neg hmem] at h
      rcases List.mem_append.mp h with h1 | h1
      · exact List.mem_append_left _ (ih h1)
      · rcases List.mem_singleton.mp h1 with rfl
        simp

/-- The keys of a Python dict are pairwise distinct. -/
theorem nodup_keys_pyDictOf {α : Type} (kvs : List (String × α)) :
    ((pyDictOf kvs).map Prod.fst).Nodup := by
  induction kvs using List.reverseRecOn with
  | nil => simp [pyDictOf]
  | append_singleton l a ih =>
    rw [pyDictOf_append_singleton, pyDictInsert]
    by_cases hmem : pyAny (pyDictOf l) a.1
    · rw [if_pos hmem]
      have hkeys : (List.map Prod.fst ((pyDictOf l).map
          (fun p => if p.1 = a.1 then (a.1, a.2) else p))) = (pyDictOf l).map Prod.fst := by
        rw [List.map_map]
        apply List.map_congr_left
        intro q _
        by_cases hq : q.1 = a.1 <;> simp [hq]
      rw [hkeys]
      exact ih
    · rw [if_neg hmem]
      rw [List.map_append]
      have hnotin : a.1 ∉ (pyDictOf l).map Prod.fst := by
        intro hcontra
        rcases List.mem_map.mp hcontra with ⟨q, hq, hfq⟩
        exact (pyAny_eq_false_iff (pyDictOf l) a.1).mp (by simpa using hmem) q hq hfq
      simp only [List.nodup_append, List.map_cons, List.map_nil]
      refine ⟨ih, List.nodup_singleton _, ?_⟩
      intro x hx
      simp only [List.mem_singleton]
      intro hxa
      exact hnotin (hxa ▸ hx)

/-- For an association list with pairwise-distinct keys (such as any
`pyDictOf` result), entry membership coincides with lookup. -/
theorem mem_iff_pyGet {α : Type} (d : List (String × α)) (k : String) (v : α)
    (hd : (d.map Prod.fst).Nodup) : (k, v) ∈ d ↔ pyGet d k = some v := by
  induction d with
  | nil => simp [pyGet]
  | cons p d ih =>
    rw [List.map_cons, List.nodup_cons] at hd
    rw [pyGet_cons, List.mem_cons]
    by_cases hp : p.1 = k
    · rw [if_pos hp]
      constructor
      · rintro (h1 | h1)
        · rw [← h1]
        · exfalso
          exact hd.1 (hp ▸ List.mem_map.mpr ⟨(k, v), h1, rfl⟩)
      · intro h1
        left
        have : v = p.2 := (Option.some.injEq _ _).mp h1.symm
        rw [this, ← hp]
    · rw [if_neg hp]
      rw [ih hd.2]
      constructor
      · rintro (h1 | h1)
        · exact absurd (congrArg Prod.fst h1.symm) hp
        · exact h1
      · intro h1
        right
        exact h1

theorem pyGet_appendAt {α : Type} (d : List (String × List α)) (k k' : String) (x : α) :
    pyGet (appendAt d k x) k'
      = if k' = k then (pyGet d k').map (fun l => l ++ [x]) else pyGet d k' := by
  induction d with
  | nil => by_cases h : k' = k <;> simp [appendAt, pyGet, h]
  | cons p d ih =>
    have hstep : appendAt (p :: d) k x
        = (if p.1 = k then (p.1, p.2 ++ [x]) else p) :: appendAt d k x := rfl
    by_cases hp : p.1 = k
    · by_cases h : k' = k
      · subst h
        simp [hstep, pyGet_cons, hp, ih]
      · simp [hstep, pyGet_cons, hp, h, Ne.symm h, ih]
    · by_cases h : k' = k
      · subst h
        simp [hstep, pyGet_cons, hp, ih]
      · simp [hstep, pyGet_cons, hp, h, ih]

theorem grabInner_length : ∀ (l inner rest : List Char),
    grabInner l = some (inner, rest) → rest.length < l.length := by
  intro l
  induction l with
  | nil => intro inner rest h; simp [grabInner] at h
  | cons c l ih =>
    intro inner rest h
    by_cases hc : c = ']'
    · subst hc
      cases l with
      | nil => simp [grabInner] at h
      | cons c2 l2 =>
        by_cases hc2 : c2 = ']'
        · subst hc2
          simp [grabInner] at h
          rw [← h.2]
          simp
          omega
        · simp [grabInner, hc2] at h
    · simp only [grabInner, if_neg hc] at h
      rcases Option.map_eq_some'.mp h with ⟨⟨inner2, rest2⟩, hg, heq⟩
      have := ih inner2 rest2 hg
      have hr : rest = rest2 := (Prod.mk.injEq _ _ _ _).mp heq |>.2.symm ▸ rfl
      subst hr
      simp
      omega

theorem grabInner_spec (inner post : List Char) (hin : ∀ c ∈ inner, c ≠ ']') :
    grabInner (inner ++ ']' :: ']' :: post) = some (inner, post) := by
  induction inner with
  | nil => simp [grabInner]
  | cons c cs ih =>
    have hc : c ≠ ']' := hin c (by simp)
    rw [List.cons_append]
    rw [show grabInner (c :: (cs ++ ']' :: ']' :: post))
        = (grabInner (cs ++ ']' :: ']' :: post)).map (fun p => (c :: p.1, p.2)) by
      simp [grabInner, hc]]
    rw [ih (fun d hd => hin d (by simp [hd]))]
    rfl

theorem renderWikilinks_nil (f : String → String) : renderWikilinks f [] = [] := by
  simp [renderWikilinks]

theorem renderWikilinks_cons_ne (f : String → String) (c : Char) (l : List Char)
    (hc : c ≠ '[') : renderWikilinks f (c :: l) = c :: renderWikilinks f l := by
  cases l with
  | nil => simp [renderWikilinks]
  | cons c2 rest =>
    rw [renderWikilinks]
    rw [if_neg (fun hand => hc hand.1)]

theorem renderWikilinks_matched (f : String → String) (inner post : List Char)
    (hne : inner ≠ []) (hin : ∀ c ∈ inner, c ≠ ']') :
    renderWikilinks f ('[' :: '[' :: (inner ++ ']' :: ']' :: post))
      = (f (String.mk inner)).toList ++ renderWikilinks f post := by
  have hg := grabInner_spec inner post hin
  rw [renderWikilinks]
  rw [if_pos ⟨rfl, rfl⟩]
  split
  · next inner2 rest2 heq =>
    rw [hg] at heq
    injection heq with heq2
    injection heq2 with h1 h2
    subst h1
    subst h2
    rw [if_neg hne]
  · next heq =>
    rw [hg] at heq
    cases heq

theorem renderWikilinks_skip (f : String → String) (pre l : List Char)
    (hpre : ∀ c ∈ pre, c ≠ '[') :
    renderWikilinks f (pre ++ l) = pre ++ renderWikilinks f l := by
  induction pre with
  | nil => simp
  | cons c cs ih =>
    rw [List.cons_append, renderWikilinks_cons_ne f c _ (hpre c (by simp)),
        ih (fun d hd => hpre d (by simp [hd])), List.cons_append]

theorem extractWikilinks_nil : extractWikilinks [] = [] := by
  simp [extractWikilinks]

theorem extractWikilinks_cons_ne (c : Char) (l : List Char) (hc : c ≠ '[') :
    extractWikilinks (c :: l) = extractWikilinks l := by
  cases l with
  | nil => simp [extractWikilinks]
  | cons c2 rest =>
    rw [extractWikilinks]
    rw [if_neg (fun hand => hc hand.1)]

theorem extractWikilinks_matched (inner post : List Char)
    (hne : inner ≠ []) (hin : ∀ c ∈ inner, c ≠ ']') :
    extractWikilinks ('[' :: '[' :: (inner ++ ']' :: ']' :: post))
      = inner :: extractWikilinks post := by
  have hg := grabInner_spec inner post hin
  rw [extractWikilinks]
  rw [if_pos ⟨rfl, rfl⟩]
  split
  · next inner2 rest2 heq =>
    rw [hg] at heq
    injection heq with heq2
    injection heq2 with h1 h2
    subst h1
    subst h2
    rw [if_neg hne]
  · next heq =>
    rw [hg] at heq
    cases heq

theorem extractWikilinks_skip (pre l : List Char) (hpre : ∀ c ∈ pre, c ≠ '[') :
    extractWikilinks (pre ++ l) = extractWikilinks l := by
  induction pre with
  | nil => simp
  | cons c cs ih =>
    rw [List.cons_append, extractWikilinks_cons_ne c _ (hpre c (by simp)),
        ih (fun d hd => hpre d (by simp [hd]))]

/-! ## Characterizations of the link and backlink indexes -/

theorem isSome_pyGet_of_pyAny {α : Type} (d : List (String × α)) (k : String)
    (h : pyAny d k = true) : (pyGet d k).isSome := by
  induction d with
  | nil => simp [pyAny] at h
  | cons p d ih =>
    rw [pyGet_cons]
    by_cases hp : p.1 = k
    · simp [hp]
    · rw [if_neg hp]
      apply ih
      simpa [pyAny, hp] using h

/-- The effect of the entry-creating idiom
`if k not in d: d[k] = []` on subsequent lookups. -/
theorem pyGet_initKey {α : Type} (li : List (String × List α)) (p k : String) :
    pyGet (if pyAny li p then li else li ++ [(p, [])]) k
      = if k = p then some ((pyGet li k).getD []) else pyGet li k := by
  by_cases hmem : pyAny li p
  · rw [if_pos hmem]
    by_cases h : k = p
    · subst h
      rcases Option.isSome_iff_exists.mp (isSome_pyGet_of_pyAny li k hmem) with ⟨v, hv⟩
      rw [hv, if_pos rfl]
      rfl
    · rw [if_neg h]
  · rw [if_neg hmem, pyGet_append]
    by_cases h : k = p
    · subst h
      rw [pyGet_eq_none_of_pyAny_false _ _ (by simpa using hmem)]
      simp [pyGet]
    · rw [if_neg h]
      have hk : ¬(p = k) := fun e => h e.symm
      rw [show pyGet [(p, ([] : List α))] k = none by simp [pyGet, hk]]
      cases pyGet li k <;> rfl

/-- The inner slug loop of `index_links`: appends the resolved targets, in
slug order, to the entry of the source stub's `id_path`. -/
theorem pyGet_foldl_appendTargets (wi : List (String × Stub)) (p : String)
    (slugs : List String) (li : List (String × List Stub)) (k : String) :
    pyGet (slugs.foldl (fun acc slug =>
        match pyGet wi slug with
        | some target => appendAt acc p target
        | none => acc) li) k
      = if k = p
        then (pyGet li k).map
          (fun l => l ++ slugs.filterMap (fun slug => pyGet wi slug))
        else pyGet li k := by
  induction slugs generalizing li with
  | nil =>
    rw [List.foldl_nil]
    by_cases h : k = p
    · rw [if_pos h]
      cases pyGet li k <;> simp
    · rw [if_neg h]
  | cons slug slugs ih =>
    rw [List.foldl_cons]
    cases hslug : pyGet wi slug with
    | none =>
      rw [ih]
      simp [List.filterMap_cons, hslug]
    | some t =>
      rw [ih, pyGet_appendAt]
      by_cases h : k = p
      · rw [if_pos h, if_pos h, if_pos h]
        cases pyGet li k <;> simp [List.filterMap_cons, hslug]
      · rw [if_neg h, if_neg h, if_neg h]

/-- The effect of one outer-loop iteration of `index_links` on lookups. -/
theorem pyGet_linkIndexStep (wi : List (String × Stub))
    (li : List (String × List Stub)) (stub : Stub) (k : String) :
    pyGet (linkIndexStep wi li stub) k
      = if k = stub.id_path
        then some ((pyGet li k).getD [] ++ linkTargets wi stub)
        else pyGet li k := by
  rw [linkIndexStep, pyGet_foldl_appendTargets, pyGet_initKey, linkTargets]
  by_cases h : k = stub.id_path
  · rw [if_pos h, if_pos h, if_pos h]
    rfl
  · rw [if_neg h, if_neg h, if_neg h]

/-- The full outer loop of `index_links` over the stubs of the slug index:
the entry of a key collects the link targets of every visited stub carrying
that `id_path`, and exists exactly when some visited stub carries it. -/
theorem pyGet_foldl_linkIndexStep (wi : List (String × Stub)) (vs : List Stub)
    (li : List (String × List Stub)) (k : String) :
    pyGet (vs.foldl (linkIndexStep wi) li) k
      = if (vs.any (fun s => s.id_path = k) || (pyGet li k).isSome)
        then some ((pyGet li k).getD []
          ++ ((vs.filter (fun s => s.id_path = k)).map (linkTargets wi)).join)
        else none := by
  induction vs generalizing li with
  | nil => cases h : pyGet li k <;> simp [h]
  | cons s vs ih =>
    rw [List.foldl_cons, ih, pyGet_linkIndexStep]
    by_cases h : k = s.id_path
    · have h2 : (s.id_path = k) := h.symm
      rw [if_pos h]
      simp [h2, List.filter_cons, List.append_assoc]
    · have h2 : ¬(s.id_path = k) := fun e => h e.symm
      rw [if_neg h]
      simp [h2, List.filter_cons]

/-- Membership in the forward link index, in terms of the slug index. -/
theorem mem_index_links_iff (stubs : List Stub) (p : String) (B : Stub) :
    B ∈ (pyGet (index_links stubs) p).getD []
      ↔ ∃ s ∈ (wikilink_index stubs).map Prod.snd,
          s.id_path = p ∧ B ∈ linkTargets (wikilink_index stubs) s := by
  rw [index_links, pyGet_foldl_linkIndexStep]
  rw [show pyGet ([] : List (String × List Stub)) p = none from rfl]
  by_cases hany : ((wikilink_index stubs).map Prod.snd).any (fun s => s.id_path = p)
  · rw [hany]
    simp only [Bool.true_or, if_true, Option.getD_some, Option.isSome_none,
      List.nil_append, Option.getD_none]
    rw [List.mem_join]
    constructor
    · rintro ⟨l, hl, hBl⟩
      rcases List.mem_map.mp hl with ⟨s, hs, rfl⟩
      rcases List.mem_filter.mp hs with ⟨hs1, hs2⟩
      exact ⟨s, hs1, by simpa using hs2, hBl⟩
    · rintro ⟨s, hs, hsp, hB⟩
      exact ⟨linkTargets (wikilink_index stubs) s,
        List.mem_map.mpr ⟨s, List.mem_filter.mpr ⟨hs, by simpa using hsp⟩, rfl⟩, hB⟩
  · have hany2 : ((wikilink_index stubs).map Prod.snd).any (fun s => s.id_path = p) = false := by
      simpa using hany
    rw [hany2, if_neg (by simp)]
    simp only [Option.getD_none, List.not_mem_nil, false_iff]
    rintro ⟨s, hs, hsp, _⟩
    rw [List.any_eq_true] at hany
    exact hany ⟨s, hs, by simpa using hsp⟩

/-- The effect of one resolved-target step of `index_backlinks` on
lookups: create the target's entry if missing, then append the linking
stub. -/
theorem pyGet_backlinkTargetStep (acc : List (String × List Stub)) (t stub : Stub)
    (k : String) :
    pyGet (appendAt (if pyAny acc t.id_path then acc
        else acc ++ [(t.id_path, [])]) t.id_path stub) k
      = if k = t.id_path then some ((pyGet acc k).getD [] ++ [stub])
        else pyGet acc k := by
  rw [pyGet_appendAt, pyGet_initKey]
  by_cases h : k = t.id_path
  · rw [if_pos h, if_pos h, if_pos h]
    rfl
  · rw [if_neg h, if_neg h, if_neg h]

/-- The inner slug loop of `index_backlinks`, over an arbitrary slug list:
the entry of a key gains one copy of the linking stub per slug resolving to
a target carrying that `id_path`, and is created exactly when one does. -/
theorem pyGet_foldl_backlinkSlugs (wi : List (String × Stub)) (stub : Stub)
    (slugs : List String) (bi : List (String × List Stub)) (k : String) :
    pyGet (slugs.foldl (fun acc slug =>
        match pyGet wi slug with
        | some target =>
          appendAt (if pyAny acc target.id_path then acc
            else acc ++ [(target.id_path, [])]) target.id_path stub
        | none => acc) bi) k
      = if ((slugs.filterMap (fun slug => pyGet wi slug)).any (fun t => t.id_path = k)
            || (pyGet bi k).isSome)
        then some ((pyGet bi k).getD []
          ++ List.replicate ((slugs.filterMap (fun slug => pyGet wi slug)).countP
              (fun t => t.id_path = k)) stub)
        else none := by
  induction slugs generalizing bi with
  | nil =>
    rw [List.foldl_nil]
    cases h : pyGet bi k <;> simp [h]
  | cons slug slugs ih =>
    rw [List.foldl_cons]
    cases hslug : pyGet wi slug with
    | none =>
      rw [ih]
      simp [List.filterMap_cons, hslug]
    | some t =>
      rw [ih, pyGet_backlinkTargetStep]
      by_cases h : k = t.id_path
      · have h2 : (t.id_path = k) := h.symm
        rw [if_pos h]
        simp [List.filterMap_cons, hslug, h2, List.countP_cons, List.replicate_succ,
          List.append_assoc]
      · have h2 : ¬(t.id_path = k) := fun e => h e.symm
        rw [if_neg h]
        simp [List.filterMap_cons, hslug, h2, List.countP_cons]

/-- The effect of one outer-loop iteration of `index_backlinks` on
lookups. -/
theorem pyGet_backlinkIndexStep (wi : List (String × Stub))
    (bi : List (String × List Stub)) (stub : Stub) (k : String) :
    pyGet (backlinkIndexStep wi bi stub) k
      = if ((linkTargets wi stub).any (fun t => t.id_path = k)
            || (pyGet bi k).isSome)
        then some ((pyGet bi k).getD []
          ++ List.replicate ((linkTargets wi stub).countP (fun t => t.id_path = k))
              stub)
        else none := by
  rw [backlinkIndexStep, pyGet_foldl_backlinkSlugs, linkTargets]

/-- The full outer loop of `index_backlinks` over the stubs of the slug
index. -/
theorem pyGet_foldl_backlinkIndexStep (wi : List (String × Stub)) (vs : List Stub)
    (bi : List (String × List Stub)) (k : String) :
    pyGet (vs.foldl (backlinkIndexStep wi) bi) k
      = if (vs.any (fun s => (linkTargets wi s).any (fun t => t.id_path = k))
            || (pyGet bi k).isSome)
        then some ((pyGet bi k).getD []
          ++ (vs.map (fun s => List.replicate
              ((linkTargets wi s).countP (fun t => t.id_path = k)) s)).join)
        else none := by
  induction vs generalizing bi with
  | nil =>
    rw [List.foldl_nil]
    cases h : pyGet bi k <;> simp [h]
  | cons s vs ih =>
    rw [List.foldl_cons, ih, pyGet_backlinkIndexStep]
    by_cases hs : (linkTargets wi s).any (fun t => t.id_path = k)
    · rw [hs]
      simp [hs, List.append_assoc]
    · have hs2 : (linkTargets wi s).any (fun t => t.id_path = k) = false := by
        simpa using hs
      have hnot : ∀ a ∈ linkTargets wi s, ¬(a.id_path = k) := by
        intro a ha hap
        exact hs (List.any_eq_true.mpr ⟨a, ha, by simpa using hap⟩)
      have hc : (linkTargets wi s).countP (fun t => t.id_path = k) = 0 := by
        rw [List.countP_eq_zero]
        intro t ht
        simpa using hnot t ht
      cases hb : pyGet bi k <;> simp [hs2, hc, hb]

/-- Membership in the backlink index, in terms of the slug index. -/
theorem mem_index_backlinks_iff (stubs : List Stub) (p : String) (A : Stub) :
    A ∈ (pyGet (index_backlinks stubs) p).getD []
      ↔ A ∈ (wikilink_index stubs).map Prod.snd
        ∧ ∃ t ∈ linkTargets (wikilink_index stubs) A, t.id_path = p := by
  rw [index_backlinks, pyGet_foldl_backlinkIndexStep]
  rw [show pyGet ([] : List (String × List Stub)) p = none from rfl]
  by_cases hany : ((wikilink_index stubs).map Prod.snd).any
      (fun s => (linkTargets (wikilink_index stubs) s).any (fun t => t.id_path = p))
  · rw [hany]
    simp only [Bool.true_or, if_true, Option.isSome_none, Option.getD_none,
      List.nil_append, Option.getD_some]
    rw [List.mem_join]
    constructor
    · rintro ⟨l, hl, hAl⟩
      rcases List.mem_map.mp hl with ⟨s, hs, rfl⟩
      rcases List.mem_replicate.mp hAl with ⟨hc, rfl⟩
      have hpos : 0 < (linkTargets (wikilink_index stubs) A).countP
          (fun t => t.id_path = p) := Nat.pos_of_ne_zero hc
      rcases List.countP_pos.mp hpos with ⟨t, ht, htp⟩
      exact ⟨hs, t, ht, by simpa using htp⟩
    · rintro ⟨hA, t, ht, htp⟩
      refine ⟨List.replicate ((linkTargets (wikilink_index stubs) A).countP
          (fun t => t.id_path = p)) A, List.mem_map.mpr ⟨A, hA, rfl⟩, ?_⟩
      rw [List.mem_replicate]
      refine ⟨?_, rfl⟩
      have hpos : 0 < (linkTargets (wikilink_index stubs) A).countP
          (fun t => t.id_path = p) := List.countP_pos.mpr ⟨t, ht, by simpa using htp⟩
      omega
  · have hany2 : (((wikilink_index stubs).map Prod.snd).any
        (fun s => (linkTargets (wikilink_index stubs) s).any
          (fun t => t.id_path = p))) = false := by simpa using hany
    rw [hany2, if_neg (by simp)]
    simp only [Option.getD_none, List.not_mem_nil, false_iff]
    rintro ⟨hA, t, ht, htp⟩
    rw [List.any_eq_true] at hany
    exact hany ⟨A, hA, List.any_eq_true.mpr ⟨t, ht, by simpa using htp⟩⟩

/-- A key is present in the backlink index only for the `id_path` of some
resolved link target. -/
theorem isSome_index_backlinks (stubs : List Stub) (p : String)
    (h : (pyGet (index_backlinks stubs) p).isSome = true) :
    ∃ s ∈ (wikilink_index stubs).map Prod.snd,
      ∃ t ∈ linkTargets (wikilink_index stubs) s, t.id_path = p := by
  rw [index_backlinks, pyGet_foldl_backlinkIndexStep] at h
  by_cases hany : ((wikilink_index stubs).map Prod.snd).any
      (fun s => (linkTargets (wikilink_index stubs) s).any (fun t => t.id_path = p))
  · rw [List.any_eq_true] at hany
    rcases hany with ⟨s, hs, hsany⟩
    rw [List.any_eq_true] at hsany
    rcases hsany with ⟨t, ht, htp⟩
    exact ⟨s, hs, t, ht, by simpa using htp⟩
  · exfalso
    have hany2 : (((wikilink_index stubs).map Prod.snd).any
        (fun s => (linkTargets (wikilink_index stubs) s).any
          (fun t => t.id_path = p))) = false := by simpa using hany
    rw [hany2] at h
    rw [show pyGet ([] : List (String × List Stub)) p = none from rfl] at h
    simp at h

/-- Every stub among the values of the slug index is one of the input stubs
and declares a `wikilinks` meta key. -/
theorem mem_values_wikilink_index (stubs : List Stub) (s : Stub)
    (h : s ∈ (wikilink_index stubs).map Prod.snd) :
    s ∈ stubs ∧ s.wikilinks.isSome := by
  rcases List.mem_map.mp h with ⟨q, hq, rfl⟩
  have h2 := mem_pyDictOf _ _ hq
  rcases List.mem_map.mp h2 with ⟨r, hr, hrq⟩
  have h3 : q.2 = r := by rw [← hrq]
  rw [h3]
  rcases List.mem_filter.mp hr with ⟨hr1, hr2⟩
  exact ⟨hr1, by simpa using hr2⟩

/-- A successful lookup in the slug index yields one of its values. -/
theorem pyGet_wikilink_index_mem (stubs : List Stub) (slug : String) (B : Stub)
    (h : pyGet (wikilink_index stubs) slug = some B) :
    B ∈ (wikilink_index stubs).map Prod.snd := by
  rw [pyGet] at h
  rcases Option.map_eq_some'.mp h with ⟨q, hq, rfl⟩
  exact List.mem_map.mpr ⟨q, List.mem_of_find?_eq_some hq, rfl⟩

/-! ## The claims -/

/-- C2, counterexample: `index_backlinks` is not the exact inverse of
`index_links` over every list of stubs.  With two stubs sharing the
`id_path` `"p"` — the first (title `"x"`) declaring no links, the second
(title `"y"`) linking to its own slug — the second stub appears in the
forward adjacency list of the first stub's `id_path`, yet the first stub
appears in no backlink list at all. -/
theorem wikilink_inverse_counterexample :
    ¬ (∀ stubs : List Stub, ∀ A ∈ stubs, ∀ B ∈ stubs,
        (B ∈ (pyGet (index_links stubs) A.id_path).getD []
          ↔ A ∈ (pyGet (index_backlinks stubs) B.id_path).getD [])) := by
  intro h
  have h2 := h [⟨"x", "p", "o1", some []⟩, ⟨"y", "p", "o2", some ["y"]⟩]
    ⟨"x", "p", "o1", some []⟩ (by decide) ⟨"y", "p", "o2", some ["y"]⟩ (by decide)
  exact absurd (h2.mp (by decide)) (by decide)

/-- C2 (amended): for every list of stubs in which no two distinct stubs
share an `id_path`, `index_backlinks` is the exact inverse of
`index_links`: a stub `B` of the list appears in the forward adjacency list
of stub `A`'s `id_path` if and only if `A` appears in the backlink
adjacency list of `B`'s `id_path`. -/
theorem wikilink_link_and_backlink_inverse (stubs : List Stub)
    (hinj : ∀ s ∈ stubs, ∀ t ∈ stubs, s.id_path = t.id_path → s = t)
    (A B : Stub) (hA : A ∈ stubs) (hB : B ∈ stubs) :
    B ∈ (pyGet (index_links stubs) A.id_path).getD []
      ↔ A ∈ (pyGet (index_backlinks stubs) B.id_path).getD [] := by
  rw [mem_index_links_iff, mem_index_backlinks_iff]
  constructor
  · rintro ⟨s, hs, hsp, hBt⟩
    have hsstubs := (mem_values_wikilink_index stubs s hs).1
    have hsA : s = A := hinj s hsstubs A hA hsp
    subst hsA
    exact ⟨hs, B, hBt, rfl⟩
  · rintro ⟨hA2, t, ht, htp⟩
    rcases List.mem_filterMap.mp ht with ⟨slug, hslug, hget⟩
    have htstubs :=
      (mem_values_wikilink_index stubs t (pyGet_wikilink_index_mem stubs slug t hget)).1
    have htB : t = B := hinj t htstubs B hB htp
    subst htB
    exact ⟨A, hA2, rfl, ht⟩

/-- Witness for the amended C2 at a concrete two-stub configuration
`A → B`. -/
theorem wikilink_link_and_backlink_inverse_witness :
    (⟨"B", "pb", "ob", some []⟩ : Stub) ∈ (pyGet (index_links
        [⟨"A", "pa", "oa", some ["b"]⟩, ⟨"B", "pb", "ob", some []⟩]) "pa").getD []
      ↔ (⟨"A", "pa", "oa", some ["b"]⟩ : Stub) ∈ (pyGet (index_backlinks
        [⟨"A", "pa", "oa", some ["b"]⟩, ⟨"B", "pb", "ob", some []⟩]) "pb").getD [] :=
  wikilink_link_and_backlink_inverse
    [⟨"A", "pa", "oa", some ["b"]⟩, ⟨"B", "pb", "ob", some []⟩]
    (by decide) ⟨"A", "pa", "oa", some ["b"]⟩ ⟨"B", "pb", "ob", some []⟩
    (by decide) (by decide)

/-- C10: only stubs that declare a `wikilinks` meta key can appear as link
targets in the forward index, and every key of the backlink index is the
`id_path` of a stub that declares a `wikilinks` meta key — even when other
stubs link to the slug of a stub without one. -/
theorem wikilink_index_targets_declare_wikilinks (stubs : List Stub) :
    (∀ p B, B ∈ (pyGet (index_links stubs) p).getD [] →
      B ∈ stubs ∧ B.wikilinks.isSome)
    ∧ (∀ p, (pyGet (index_backlinks stubs) p).isSome = true →
      ∃ s ∈ stubs, s.id_path = p ∧ s.wikilinks.isSome) := by
  constructor
  · intro p B hB
    rcases (mem_index_links_iff stubs p B).mp hB with ⟨s, hs, hsp, hBt⟩
    rcases List.mem_filterMap.mp hBt with ⟨slug, hslug, hget⟩
    exact mem_values_wikilink_index stubs B (pyGet_wikilink_index_mem stubs slug B hget)
  · intro p hp
    rcases isSome_index_backlinks stubs p hp with ⟨s, hs, t, ht, htp⟩
    rcases List.mem_filterMap.mp ht with ⟨slug, hslug, hget⟩
    have h2 := mem_values_wikilink_index stubs t (pyGet_wikilink_index_mem stubs slug t hget)
    exact ⟨t, h2.1, htp, h2.2⟩

/-- Witness for C10 at a concrete configuration: a stub linking to itself
makes itself a forward target and its `id_path` a backlink key. -/
theorem wikilink_index_targets_declare_wikilinks_witness :
    ((⟨"A", "pa", "oa", some ["a"]⟩ : Stub)
        ∈ [(⟨"A", "pa", "oa", some ["a"]⟩ : Stub)]
      ∧ (⟨"A", "pa", "oa", some ["a"]⟩ : Stub).wikilinks.isSome)
    ∧ (∃ s ∈ [(⟨"A", "pa", "oa", some ["a"]⟩ : Stub)],
        s.id_path = "pa" ∧ s.wikilinks.isSome) :=
  ⟨(wikilink_index_targets_declare_wikilinks [⟨"A", "pa", "oa", some ["a"]⟩]).1
      "pa" ⟨"A", "pa", "oa", some ["a"]⟩ (by decide),
   (wikilink_index_targets_declare_wikilinks [⟨"A", "pa", "oa", some ["a"]⟩]).2
      "pa" (by decide)⟩

/-- C5: `index_slug_to_url` maps the slug of each stub's title to the URL
formed from that stub's `output_path` and the base URL; when several
stubs' titles slugify to the same value, the stub occurring last in the
input order wins. -/
theorem index_slug_to_url_spec (stubs : List Stub) (base_url : String)
    (slug : String) :
    pyGet (index_slug_to_url stubs base_url) slug
      = ((stubs.filter (fun s => to_slug s.title = slug)).getLast?).map
          (fun s => to_url s.output_path base_url) := by
  rw [index_slug_to_url, pyGet_pyDictOf, List.filter_map, List.getLast?_map]
  rw [show ((fun p : String × String => decide (p.1 = slug)) ∘
      (fun stub : Stub => (to_slug stub.title, to_url stub.output_path base_url)))
    = (fun s : Stub => decide (to_slug s.title = slug)) from rfl]
  cases (stubs.filter (fun s => to_slug s.title = slug)).getLast? <;> rfl

theorem string_mk_data (s : String) : String.mk s.data = s := rfl

theorem string_mk_append (a b : List Char) :
    String.mk (a ++ b) = String.mk a ++ String.mk b := rfl

/-- C1: the renderer returned by `doc_renderer` replaces each occurrence of
`[[Inner]]` in the document's content; the occurrence whose trimmed inner
text slugifies to a key of the slug index becomes the anchor element
`<a href="{url}" class="wikilink">{text}</a>` with the index's URL, any
other occurrence becomes `<span class="nolink">{text}</span>` (rather than
an error), and the text around and after the occurrence is rendered
unchanged, the remainder recursively. -/
theorem doc_renderer_spec (stubs : List Stub) (base_url : String) (doc : WDoc)
    (pre inner post : String)
    (hpre : ∀ c ∈ pre.toList, c ≠ '[')
    (hne : inner.toList ≠ [])
    (hin : ∀ c ∈ inner.toList, c ≠ ']')
    (hcontent : doc.content = pre ++ "[[" ++ inner ++ "]]" ++ post) :
    (doc_renderer stubs base_url doc).content
      = pre ++ render_inner_match (index_slug_to_url stubs base_url) inner
        ++ (doc_renderer stubs base_url { doc with content := post }).content
    ∧ (∀ url, pyGet (index_slug_to_url stubs base_url) (to_slug inner.trim) = some url →
        render_inner_match (index_slug_to_url stubs base_url) inner
          = "<a href=\"" ++ url ++ "\" class=\"wikilink\">" ++ inner.trim ++ "</a>")
    ∧ (pyGet (index_slug_to_url stubs base_url) (to_slug inner.trim) = none →
        render_inner_match (index_slug_to_url stubs base_url) inner
          = "<span class=\"nolink\">" ++ inner.trim ++ "</span>") := by
  refine ⟨?_, ?_, ?_⟩
  · rw [doc_renderer, doc_renderer]
    have hdata : doc.content.toList
        = pre.toList ++ ('[' :: '[' :: (inner.toList ++ (']' :: ']' :: post.toList))) := by
      rw [hcontent]
      show (pre ++ "[[" ++ inner ++ "]]" ++ post).data = _
      simp only [String.data_append, List.append_assoc]
      rfl
    rw [show ({ doc with content := post } : WDoc).content = post from rfl]
    rw [hdata, renderWikilinks_skip _ _ _ hpre,
      renderWikilinks_matched _ _ _ hne hin]
    rw [string_mk_append, string_mk_append, string_mk_data, string_mk_data]
    rw [String.append_assoc]
    rfl
  · intro url hurl
    rw [render_inner_match]
    rw [hurl]
  · intro hurl
    rw [render_inner_match]
    rw [hurl]

/-- Witness for C1 at a concrete index and document: the content
`"x[[Foo]]y"` with a stub titled `"Foo"` present, decomposed as
`"x" ++ "[[" ++ "Foo" ++ "]]" ++ "y"`. -/
theorem doc_renderer_spec_witness :
    ((doc_renderer [⟨"Foo", "pf", "foo/index.html", none⟩] "/"
        ⟨"x[[Foo]]y", [], "t", "o"⟩).content
      = "x" ++ render_inner_match
          (index_slug_to_url [⟨"Foo", "pf", "foo/index.html", none⟩] "/") "Foo"
        ++ (doc_renderer [⟨"Foo", "pf", "foo/index.html", none⟩] "/"
            ⟨"y", [], "t", "o"⟩).content)
    ∧ (∀ url, pyGet (index_slug_to_url [⟨"Foo", "pf", "foo/index.html", none⟩] "/")
          (to_slug ("Foo" : String).trim) = some url →
        render_inner_match
            (index_slug_to_url [⟨"Foo", "pf", "foo/index.html", none⟩] "/") "Foo"
          = "<a href=\"" ++ url ++ "\" class=\"wikilink\">"
            ++ ("Foo" : String).trim ++ "</a>")
    ∧ (pyGet (index_slug_to_url [⟨"Foo", "pf", "foo/index.html", none⟩] "/")
          (to_slug ("Foo" : String).trim) = none →
        render_inner_match
            (index_slug_to_url [⟨"Foo", "pf", "foo/index.html", none⟩] "/") "Foo"
          = "<span class=\"nolink\">" ++ ("Foo" : String).trim ++ "</span>") :=
  doc_renderer_spec [⟨"Foo", "pf", "foo/index.html", none⟩] "/"
    ⟨"x[[Foo]]y", [], "t", "o"⟩ "x" "Foo" "y"
    (by decide) (by decide) (by decide) (by decide)

/-- C7: `uplift_wikilinks` stores under `meta.wikilinks` the slugs of all
`[[...]]` capture groups of the content in occurrence order — on a content
decomposed around its first occurrence, the slug of the inner text followed
by the slugs of the remainder — and leaves the content, every other doc
field and every other meta key unchanged. -/
theorem uplift_wikilinks_spec (doc : WDoc) (pre inner post : String)
    (hpre : ∀ c ∈ pre.toList, c ≠ '[')
    (hne : inner.toList ≠ [])
    (hin : ∀ c ∈ inner.toList, c ≠ ']')
    (hcontent : doc.content = pre ++ "[[" ++ inner ++ "]]" ++ post) :
    pyGet (uplift_wikilinks doc).meta "wikilinks"
      = some (MetaVal.mlist (to_slug inner :: wikilinkSlugs post))
    ∧ (uplift_wikilinks doc).content = doc.content
    ∧ (uplift_wikilinks doc).title = doc.title
    ∧ (uplift_wikilinks doc).output_path = doc.output_path
    ∧ (∀ k, k ≠ "wikilinks" →
        pyGet (uplift_wikilinks doc).meta k = pyGet doc.meta k) := by
  refine ⟨?_, rfl, rfl, rfl, ?_⟩
  · rw [show (uplift_wikilinks doc).meta
        = pyDictInsert doc.meta "wikilinks"
            (MetaVal.mlist (wikilinkSlugs doc.content)) from rfl]
    rw [pyGet_pyDictInsert, if_pos rfl]
    have hdata : doc.content.toList
        = pre.toList ++ ('[' :: '[' :: (inner.toList ++ (']' :: ']' :: post.toList))) := by
      rw [hcontent]
      show (pre ++ "[[" ++ inner ++ "]]" ++ post).data = _
      simp only [String.data_append, List.append_assoc]
      rfl
    rw [wikilinkSlugs, hdata, extractWikilinks_skip _ _ hpre,
      extractWikilinks_matched _ _ hne hin]
    rw [List.map_cons, string_mk_data]
    rfl
  · intro k hk
    rw [show (uplift_wikilinks doc).meta
        = pyDictInsert doc.meta "wikilinks"
            (MetaVal.mlist (wikilinkSlugs doc.content)) from rfl]
    rw [pyGet_pyDictInsert, if_neg hk]

/-- Witness for C7 at a concrete document with content `"x[[Foo]]y"`. -/
theorem uplift_wikilinks_spec_witness :
    pyGet (uplift_wikilinks ⟨"x[[Foo]]y", [("a", MetaVal.mnone)], "t", "o"⟩).meta
        "wikilinks"
      = some (MetaVal.mlist (to_slug "Foo" :: wikilinkSlugs "y"))
    ∧ (uplift_wikilinks ⟨"x[[Foo]]y", [("a", MetaVal.mnone)], "t", "o"⟩).content
      = (⟨"x[[Foo]]y", [("a", MetaVal.mnone)], "t", "o"⟩ : WDoc).content
    ∧ (uplift_wikilinks ⟨"x[[Foo]]y", [("a", MetaVal.mnone)], "t", "o"⟩).title
      = (⟨"x[[Foo]]y", [("a", MetaVal.mnone)], "t", "o"⟩ : WDoc).title
    ∧ (uplift_wikilinks ⟨"x[[Foo]]y", [("a", MetaVal.mnone)], "t", "o"⟩).output_path
      = (⟨"x[[Foo]]y", [("a", MetaVal.mnone)], "t", "o"⟩ : WDoc).output_path
    ∧ (∀ k, k ≠ "wikilinks" →
        pyGet (uplift_wikilinks ⟨"x[[Foo]]y", [("a", MetaVal.mnone)], "t", "o"⟩).meta k
          = pyGet (⟨"x[[Foo]]y", [("a", MetaVal.mnone)], "t", "o"⟩ : WDoc).meta k) :=
  uplift_wikilinks_spec ⟨"x[[Foo]]y", [("a", MetaVal.mnone)], "t", "o"⟩ "x" "Foo" "y"
    (by decide) (by decide) (by decide) (by decide)

theorem pyGet_loaded_meta (fct fmt : Time) (ip sp op : String)
    (m : List (String × MetaVal)) (c : String) :
    pyGet (loaded_doc fct fmt ip sp op m c) "meta" = some (Value.vmeta m) := rfl

theorem pyGet_loaded_input (fct fmt : Time) (ip sp op : String)
    (m : List (String × MetaVal)) (c : String) :
    pyGet (loaded_doc fct fmt ip sp op m c) "input_path" = some (Value.vstr ip) := rfl

theorem pyGet_loaded_simple (fct fmt : Time) (ip sp op : String)
    (m : List (String × MetaVal)) (c : String) :
    pyGet (loaded_doc fct fmt ip sp op m c) "simple_path" = some (Value.vstr sp) := rfl

theorem pyGet_loaded_content (fct fmt : Time) (ip sp op : String)
    (m : List (String × MetaVal)) (c : String) :
    pyGet (loaded_doc fct fmt ip sp op m c) "content" = some (Value.vstr c) := rfl

/-- On a freshly loaded doc, `read_title` always succeeds: either the
declared `meta.title` or the filename-derived fallback. -/
theorem read_title_loaded (fct fmt : Time) (ip sp op : String)
    (m : List (String × MetaVal)) (c : String) :
    read_title (loaded_doc fct fmt ip sp op m c)
      = some (match pyGet m "title" with
              | some v => v.toValue
              | none => Value.vstr (to_title ip)) := by
  cases h : pyGet m "title" <;>
    simp [read_title, pyGet_loaded_meta, pyGet_loaded_input, h]

/-- On a freshly loaded doc, `read_summary` always succeeds: either the
declared `meta.summary` or the truncated HTML-stripped content. -/
theorem read_summary_loaded (fct fmt : Time) (ip sp op : String)
    (m : List (String × MetaVal)) (c : String) :
    read_summary (loaded_doc fct fmt ip sp op m c)
      = some (match pyGet m "summary" with
              | some v => v.toValue
              | none => Value.vstr (truncate (strip_html c) 250 "...")) := by
  cases h : pyGet m "summary" <;>
    simp [read_summary, pyGet_loaded_meta, pyGet_loaded_content, h]

/-- On a freshly loaded doc, `decorate_smart_items` always succeeds and
merges exactly the five decorated fields. -/
theorem decorate_loaded (fct fmt : Time) (ip sp op : String)
    (m : List (String × MetaVal)) (c : String) :
    ∃ tv sv, decorate_smart_items (loaded_doc fct fmt ip sp op m c)
      = some (merge (loaded_doc fct fmt ip sp op m c)
          [("title", tv), ("summary", sv),
           ("section", Value.vstr (tld sp)),
           ("date", read_date (loaded_doc fct fmt ip sp op m c)),
           ("modified", read_modified (loaded_doc fct fmt ip sp op m c))]) := by
  refine ⟨(match pyGet m "title" with
           | some v => v.toValue
           | none => Value.vstr (to_title ip)),
          (match pyGet m "summary" with
           | some v => v.toValue
           | none => Value.vstr (truncate (strip_html c) 250 "...")), ?_⟩
  rw [decorate_smart_items, read_title_loaded, read_summary_loaded, pyGet_loaded_simple]

/-- The projection of the decorated doc keeps exactly the whitelisted keys,
whatever the decorated values are. -/
theorem to_li_merge_keys (fct fmt : Time) (ip sp op : String)
    (m : List (String × MetaVal)) (c : String) (v1 v2 v3 v4 v5 : Value) :
    (to_li (merge (loaded_doc fct fmt ip sp op m c)
      [("title", v1), ("summary", v2), ("section", v3), ("date", v4),
       ("modified", v5)])).map Prod.fst
      = ["file_created_time", "file_modified_time", "simple_path", "output_path",
         "meta", "title", "summary", "section", "date", "modified"] := by
  rfl

/-- C3: projecting any decorated loaded document with `to_li` yields a
record holding exactly the ten whitelisted `_LI_KEYS` fields and no
others (in particular, `input_path` and `content` are dropped). -/
theorem to_li_whitelist (fct fmt : Time) (ip sp op : String)
    (m : List (String × MetaVal)) (c : String) :
    (decorate_smart_items (loaded_doc fct fmt ip sp op m c)).map
        (fun d => (to_li d).map Prod.fst)
      = some ["file_created_time", "file_modified_time", "simple_path",
          "output_path", "meta", "title", "summary", "section", "date", "modified"]
    ∧ List.Perm ["file_created_time", "file_modified_time", "simple_path",
          "output_path", "meta", "title", "summary", "section", "date", "modified"]
        LI_KEYS := by
  constructor
  · rcases decorate_loaded fct fmt ip sp op m c with ⟨tv, sv, heq⟩
    rw [heq, Option.map_some', to_li_merge_keys]
  · decide

/-- C4, counterexample: `read_date` does not return the epoch sentinel only
when header-date parsing fails and no `file_created_time` exists — a doc
whose declared `meta.date` is `"1970-01-01"` parses successfully, yet
`read_date` returns the epoch sentinel. -/
theorem read_date_counterexample :
    ¬ (∀ doc : Doc, read_date doc = Value.vtime EPOCH ↔
        (read_header_date doc "date" = none
          ∧ pyGet doc "file_created_time" = none)) := by
  intro h
  exact absurd
    ((h [("meta", Value.vmeta [("date", MetaVal.mstr "1970-01-01")])]).mp
      (by decide)).1
    (by decide)

/-- C4 (amended): `read_date` returns the parsed ISO-8601 value of
`meta.date` when that field is present and parses; on parse failure or
absence it returns the doc's `file_created_time` field when that field
exists, and the epoch sentinel when it does not.  (The epoch sentinel can
also be returned when the parsed date or the `file_created_time` value
itself equals it.) -/
theorem read_date_spec (doc : Doc) :
    (∀ m s t, pyGet doc "meta" = some (Value.vmeta m) →
        pyGet m "date" = some (MetaVal.mstr s) → parse_iso_8601 s = some t →
        read_date doc = Value.vtime t)
    ∧ (∀ v, read_header_date doc "date" = none →
        pyGet doc "file_created_time" = some v → read_date doc = v)
    ∧ (read_header_date doc "date" = none →
        pyGet doc "file_created_time" = none →
        read_date doc = Value.vtime EPOCH) := by
  refine ⟨?_, ?_, ?_⟩
  · intro m s t h1 h2 h3
    rw [read_date, read_header_date]
    simp only [h1, h2, h3]
  · intro v h1 h2
    rw [read_date, h1, h2]
    rfl
  · intro h1 h2
    rw [read_date, h1, h2]
    rfl

/-- Witness for the amended C4 at three concrete docs: a parsing header
date, a fallback to an existing `file_created_time`, and the epoch
sentinel when neither exists. -/
theorem read_date_spec_witness :
    read_date [("meta", Value.vmeta [("date", MetaVal.mstr "2020-05-17")])]
      = Value.vtime ⟨2020, 5, 17⟩
    ∧ read_date [("meta", Value.vmeta []),
        ("file_created_time", Value.vtime ⟨1999, 1, 2⟩)]
      = Value.vtime ⟨1999, 1, 2⟩
    ∧ read_date ([] : Doc) = Value.vtime EPOCH :=
  ⟨(read_date_spec [("meta", Value.vmeta [("date", MetaVal.mstr "2020-05-17")])]).1
      [("date", MetaVal.mstr "2020-05-17")] "2020-05-17" ⟨2020, 5, 17⟩
      (by decide) (by decide) (by decide),
   (read_date_spec [("meta", Value.vmeta []),
        ("file_created_time", Value.vtime ⟨1999, 1, 2⟩)]).2.1
      (Value.vtime ⟨1999, 1, 2⟩) (by decide) (by decide),
   (read_date_spec ([] : Doc)).2.2 (by decide) (by decide)⟩

/-- C6: `reload_content` returns the doc unchanged when its content field
holds a non-empty string; when the doc has no `input_path` it returns a
copy whose content is the empty string rather than failing; otherwise it
re-reads and re-parses the source file and fills the content field with the
parsed body. -/
theorem reload_content_spec
    (fs : String → Option (List (String × MetaVal) × String)) (doc : Doc) :
    (∀ s, pyGet doc "content" = some (Value.vstr s) → s ≠ "" →
        reload_content fs doc = some doc)
    ∧ (truthyOpt (pyGet doc "content") = false → pyGet doc "input_path" = none →
        reload_content fs doc = some (put doc "content" (Value.vstr "")))
    ∧ (∀ p mc, truthyOpt (pyGet doc "content") = false →
        pyGet doc "input_path" = some (Value.vstr p) → fs p = some mc →
        reload_content fs doc = some (put doc "content" (Value.vstr mc.2))) := by
  refine ⟨?_, ?_, ?_⟩
  · intro s h1 h2
    rw [reload_content, h1]
    rw [if_pos (by simp [truthyOpt, Value.truthy, h2])]
  · intro h1 h2
    rw [reload_content, if_neg (by simp [h1]), h2]
  · intro p mc h1 h2 h3
    rw [reload_content, if_neg (by simp [h1])]
    simp only [h2, h3]

/-- Witness for C6 at three concrete docs: non-empty content kept, missing
`input_path` recovered with empty content, and a successful re-read filling
the parsed body. -/
theorem reload_content_spec_witness :
    reload_content (fun _ => some ([("h", MetaVal.mnone)], "body"))
        [("content", Value.vstr "x")]
      = some [("content", Value.vstr "x")]
    ∧ reload_content (fun _ => some ([("h", MetaVal.mnone)], "body"))
        [("meta", Value.vmeta [])]
      = some (put [("meta", Value.vmeta [])] "content" (Value.vstr ""))
    ∧ reload_content (fun _ => some ([("h", MetaVal.mnone)], "body"))
        [("input_path", Value.vstr "f.md")]
      = some (put [("input_path", Value.vstr "f.md")] "content"
          (Value.vstr "body")) :=
  ⟨(reload_content_spec (fun _ => some ([("h", MetaVal.mnone)], "body"))
      [("content", Value.vstr "x")]).1 "x" (by decide) (by decide),
   (reload_content_spec (fun _ => some ([("h", MetaVal.mnone)], "body"))
      [("meta", Value.vmeta [])]).2.1 (by decide) (by decide),
   (reload_content_spec (fun _ => some ([("h", MetaVal.mnone)], "body"))
      [("input_path", Value.vstr "f.md")]).2.2 "f.md"
      ([("h", MetaVal.mnone)], "body") (by decide) (by decide) rfl⟩

/-- C9: on the re-read path of `reload_content`, every field other than
`content` is unchanged in the returned doc; in particular the header
metadata re-parsed from the file (`mc.1`) is discarded and the doc's
existing `meta` field is kept as-is, while `content` receives the re-parsed
body. -/
theorem reload_content_frame
    (fs : String → Option (List (String × MetaVal) × String)) (doc : Doc)
    (p : String) (mc : (List (String × MetaVal)) × String) (d : Doc)
    (h1 : truthyOpt (pyGet doc "content") = false)
    (h2 : pyGet doc "input_path" = some (Value.vstr p))
    (h3 : fs p = some mc)
    (h4 : reload_content fs doc = some d) :
    (∀ k, k ≠ "content" → pyGet d k = pyGet doc k)
    ∧ pyGet d "meta" = pyGet doc "meta"
    ∧ pyGet d "content" = some (Value.vstr mc.2) := by
  have hd : d = put doc "content" (Value.vstr mc.2) := by
    rw [reload_content, if_neg (by simp [h1])] at h4
    simp only [h2, h3] at h4
    exact ((Option.some.injEq _ _).mp h4).symm
  subst hd
  refine ⟨?_, ?_, ?_⟩
  · intro k hk
    rw [put, pyGet_pyDictInsert, if_neg hk]
  · rw [put, pyGet_pyDictInsert, if_neg (by decide)]
  · rw [put, pyGet_pyDictInsert, if_pos rfl]

/-- Witness for C9 at a concrete doc and file: the re-parsed header
`[("h", mnone)]` is discarded, the existing `meta` survives. -/
theorem reload_content_frame_witness :
    (∀ k, k ≠ "content" →
      pyGet (put [("meta", Value.vmeta [("old", MetaVal.mnone)]),
          ("input_path", Value.vstr "f.md")] "content" (Value.vstr "body")) k
        = pyGet [("meta", Value.vmeta [("old", MetaVal.mnone)]),
            ("input_path", Value.vstr "f.md")] k)
    ∧ pyGet (put [("meta", Value.vmeta [("old", MetaVal.mnone)]),
          ("input_path", Value.vstr "f.md")] "content" (Value.vstr "body")) "meta"
      = pyGet [("meta", Value.vmeta [("old", MetaVal.mnone)]),
          ("input_path", Value.vstr "f.md")] "meta"
    ∧ pyGet (put [("meta", Value.vmeta [("old", MetaVal.mnone)]),
          ("input_path", Value.vstr "f.md")] "content" (Value.vstr "body")) "content"
      = some (Value.vstr "body") :=
  reload_content_frame (fun _ => some ([("h", MetaVal.mnone)], "body"))
    [("meta", Value.vmeta [("old", MetaVal.mnone)]), ("input_path", Value.vstr "f.md")]
    "f.md" ([("h", MetaVal.mnone)], "body")
    (put [("meta", Value.vmeta [("old", MetaVal.mnone)]),
      ("input_path", Value.vstr "f.md")] "content" (Value.vstr "body"))
    (by decide) (by decide) rfl (by decide)

/-- C8: a `CalledProcessError` from the static-asset copy step is caught
and suppressed — the build is not aborted, and the run produces the same
single completion line `Done! Generated {N} files in "{output_path}"` as a
run whose copy succeeds; any other exception still aborts. -/
theorem main_copy_failure_suppressed (written : Nat) (output_path : String) :
    main_after_write written output_path (Except.error CopyError.calledProcessError)
      = Except.ok (done_line written output_path)
    ∧ main_after_write written output_path (Except.error CopyError.calledProcessError)
      = main_after_write written output_path (Except.ok ())
    ∧ main_after_write written output_path (Except.error CopyError.otherError)
      = Except.error CopyError.otherError :=
  ⟨rfl, rfl, rfl⟩

end Lettersmith
